import Mathlib

/-!
Verification of the Dyna-style planning agent of `code/agent.py`
(classes `DynaAgent` and `MyDynaAgent`), together with the coordinate
embedding `Environment._convert_state_to_coords` of `code/environment.py`.

Modelling conventions:
* numpy float arrays become functions into `ℝ`; integer arrays become
  functions into `ℕ` or `ℤ` matching the dtype;
* the experience buffer `np.zeros((num_states*num_actions, 4))` becomes a
  function `ℕ → Row` written row by row exactly as the source loops do;
* every call to the process-wide random source (`np.random.choice`,
  `np.random.randint`) is modelled by an oracle argument supplying the
  drawn value, so theorems quantify over all possible draws;
* `self.Q[s1,:].max()` (numpy max over a row, which requires at least one
  action) becomes `rowMax`, a left fold of `max` over the row.
-/

open scoped Classical

noncomputable section

namespace Dyna

/-- One row `[s, a, r, s1]` of the experience buffer / history
(`dtype=int` in the source, so the reward is an integer). -/
structure Row where
  s : Nat
  a : Nat
  r : Int
  s1 : Nat
deriving DecidableEq

/-- The mutable and configuration state of a `DynaAgent` instance:
`alpha`, `gamma`, `epsilon` from `__init__`; `num_states`, `num_actions`,
`start_state`, `goal_state` and the reward table `R` inherited from the
`Environment`; and the four mutable tables plus the current state `s`. -/
structure DynaAgent where
  alpha : ℝ
  gamma : ℝ
  epsilon : ℝ
  num_states : Nat
  num_actions : Nat
  start_state : Nat
  goal_state : Nat
  R : Nat → Nat → Int
  Q : Nat → Nat → ℝ
  experience_buffer : Nat → Row
  action_count : Nat → Nat → Nat
  history : List Row
  s : Nat

/-- Maximum of `f 0, ..., f (n-1)`, as numpy's `.max()` over a row of
length `n`; a fold of `max` seeded with `f 0` (numpy raises on an empty
row, so the value is only meaningful for `0 < n`). -/
def rowMax (f : Nat → ℝ) (n : Nat) : ℝ :=
  ((List.range n).map f).foldl max (f 0)

/-- `DynaAgent._update_qvals`:
`Q[s,a] += alpha * (r + epsilon * bonus * sqrt(action_count[s,a]) + gamma * Q[s1,:].max() - Q[s,a])`,
where the boolean `bonus` multiplies as 1 or 0. -/
def update_qvals (ag : DynaAgent) (s a : Nat) (r : Int) (s1 : Nat) (bonus : Bool) :
    DynaAgent :=
  { ag with Q := fun sP aP =>
      if sP = s ∧ aP = a then
        ag.Q s a + ag.alpha * ((r : ℝ)
          + ag.epsilon * (if bonus then (1 : ℝ) else 0)
              * Real.sqrt ((ag.action_count s a : ℝ))
          + ag.gamma * rowMax (ag.Q s1) ag.num_actions
          - ag.Q s a)
      else ag.Q sP aP }

/-- First line of `DynaAgent._update_action_count`: `self.action_count += 1`. -/
def incr_all (c : Nat → Nat → Nat) : Nat → Nat → Nat :=
  fun sP aP => c sP aP + 1

/-- Second line of `DynaAgent._update_action_count`: `self.action_count[s,a] = 0`. -/
def set_zero (c : Nat → Nat → Nat) (s a : Nat) : Nat → Nat → Nat :=
  fun sP aP => if sP = s ∧ aP = a then 0 else c sP aP

/-- `DynaAgent._update_action_count`: increment every counter by one,
then zero the entry of the taken pair `(s, a)`. -/
def update_action_count (ag : DynaAgent) (s a : Nat) : DynaAgent :=
  { ag with action_count := set_zero (incr_all ag.action_count) s a }

/-- `DynaAgent._update_experience_buffer`:
`self.experience_buffer[s*self.num_actions+a] = [s, a, r, s1]`. -/
def update_experience_buffer (ag : DynaAgent) (s a : Nat) (r : Int) (s1 : Nat) :
    DynaAgent :=
  { ag with experience_buffer := fun i =>
      if i = s * ag.num_actions + a then ⟨s, a, r, s1⟩ else ag.experience_buffer i }

/-- `DynaAgent._update_history`: append the row `[s, a, r, s1]`
(`np.vstack` appends at the end). -/
def update_history (ag : DynaAgent) (s a : Nat) (r : Int) (s1 : Nat) : DynaAgent :=
  { ag with history := ag.history ++ [⟨s, a, r, s1⟩] }

/-- The score `Q_exp` computed in `DynaAgent._policy`:
`Q[s,:] + epsilon * sqrt(action_count[s,:])`, entrywise. -/
def q_exp (ag : DynaAgent) (s a : Nat) : ℝ :=
  ag.Q s a + ag.epsilon * Real.sqrt ((ag.action_count s a : ℝ))

/-- `Q_exp.max()` in `DynaAgent._policy`. -/
def q_exp_max (ag : DynaAgent) (s : Nat) : ℝ :=
  rowMax (q_exp ag s) ag.num_actions

/-- `np.flatnonzero(Q_exp == Q_exp.max())` in `DynaAgent._policy`: the
ascending list of actions attaining the maximal score. -/
def policy_candidates (ag : DynaAgent) (s : Nat) : List Nat :=
  (List.range ag.num_actions).filter (fun a => q_exp ag s a = q_exp_max ag s)

/-- `DynaAgent._policy`: `np.random.choice` over the candidate list,
the random draw being modelled by the oracle value `pick` reduced
modulo the length of the list. -/
def policy (ag : DynaAgent) (s : Nat) (pick : Nat) : Nat :=
  (policy_candidates ag s).getD (pick % (policy_candidates ag s).length) 0

/-- One iteration of the loop in `DynaAgent._plan`: read the buffer row
at the drawn index `i` and apply `_update_qvals` with `bonus=True`. -/
def plan_step (ag : DynaAgent) (i : Nat) : DynaAgent :=
  update_qvals ag (ag.experience_buffer i).s (ag.experience_buffer i).a
    (ag.experience_buffer i).r (ag.experience_buffer i).s1 true

/-- `DynaAgent._plan`: one `plan_step` per drawn index; the list `draws`
holds the `num_planning_updates` values returned by
`np.random.randint(self.experience_buffer.shape[0])`, in order. -/
def plan (ag : DynaAgent) : List Nat → DynaAgent
  | [] => ag
  | i :: rest => plan (plan_step ag i) rest

/-- `DynaAgent._update_history` on an empty history, i.e. the write
pattern of `DynaAgent._init_experience_buffer`: a single assignment
`buf[i] = row` to a numpy array viewed as a function. -/
def write_row (buf : Nat → Row) (i : Nat) (row : Row) : Nat → Row :=
  fun j => if j = i then row else buf j

/-- Inner loop of `DynaAgent._init_experience_buffer`: for a fixed state
`s`, write `[s, a, 0, s]` at index `s*nA + a` for `a = 0, ..., nA-1`. -/
def init_buffer_row (nA : Nat) (buf : Nat → Row) (s : Nat) : Nat → Row :=
  (List.range nA).foldl (fun b a => write_row b (s * nA + a) ⟨s, a, 0, s⟩) buf

/-- `DynaAgent._init_experience_buffer`: start from the all-zero array of
`np.zeros((nS*nA, 4))` and run the double loop over states and actions. -/
def init_experience_buffer (nS nA : Nat) : Nat → Row :=
  (List.range nS).foldl (init_buffer_row nA) (fun _ => ⟨0, 0, 0, 0⟩)

/-- The reset performed at the top of `DynaAgent.simulate` when
`reset_agent` is true: `_init_q_values`, `_init_experience_buffer`,
`_init_action_count`, `_init_history`, and `self.s = self.start_state`. -/
def reset_tables (ag : DynaAgent) : DynaAgent :=
  { ag with
    Q := fun _ _ => 0
    experience_buffer := init_experience_buffer ag.num_states ag.num_actions
    action_count := fun _ _ => 0
    history := []
    s := ag.start_state }

/-- The random draws consumed by one trial of `DynaAgent.simulate`:
`pick` for the `np.random.choice` inside `_policy`, `next` for the next
state sampled from `T[s,a,:]`, and `draws` for the planning indices. -/
structure StepOracle where
  pick : Nat
  next : Nat
  draws : List Nat

/-- One iteration of the loop in `DynaAgent.simulate`: choose an action,
sample `s1` (oracle), read the reward `R[s,a]`, learn without bonus,
update the world model, reset the action count, append to the history,
optionally plan, and finally move to `s1`, or back to the start state if
`s1` is the goal state. -/
def trial (doPlan : Bool) (ag : DynaAgent) (o : StepOracle) : DynaAgent :=
  let a := policy ag ag.s o.pick
  let s1 := o.next
  let r := ag.R ag.s a
  let ag4 :=
    update_history
      (update_action_count
        (update_experience_buffer
          (update_qvals ag ag.s a r s1 false) ag.s a r s1) ag.s a) ag.s a r s1
  let ag5 := if doPlan then plan ag4 o.draws else ag4
  { ag5 with s := if s1 = ag.goal_state then ag.start_state else s1 }

/-- The main loop of `DynaAgent.simulate`: `n` trials, the `k`-th trial
consuming the draws `oracle k`. -/
def run_trials (doPlan : Bool) (oracle : Nat → StepOracle) (ag : DynaAgent) :
    Nat → DynaAgent
  | 0 => ag
  | n + 1 => trial doPlan (run_trials doPlan oracle ag n) (oracle n)

/-- `DynaAgent.simulate`: optional reset, then the trial loop. -/
def simulate (ag : DynaAgent) (num_trials : Nat) (reset_agent : Bool)
    (doPlan : Bool) (oracle : Nat → StepOracle) : DynaAgent :=
  run_trials doPlan oracle (if reset_agent then reset_tables ag else ag) num_trials

/-- `np.cumsum` on a list of integers, carrying the running sum `acc`. -/
def cumsum_from (acc : Int) : List Int → List Int
  | [] => []
  | x :: xs => (acc + x) :: cumsum_from (acc + x) xs

/-- `DynaAgent.get_performace`: `np.cumsum(self.history[:, 2])`. -/
def get_performace (ag : DynaAgent) : List Int :=
  cumsum_from 0 (ag.history.map Row.r)

/-- `Environment._convert_state_to_coords`:
`s // num_x_states, s % num_x_states`. -/
def convert_state_to_coords (num_x_states : Nat) (s : Nat) : Nat × Nat :=
  (s / num_x_states, s % num_x_states)

/-- The `distance` array of `MyDynaAgent._update_action_count`, evaluated
at state `sP`: the Euclidean distance between the coordinates of `sP` and
those of the state `s` passed to the call. -/
def euclid_distance (nx : Nat) (s sP : Nat) : ℝ :=
  Real.sqrt
    ((((convert_state_to_coords nx sP).1 : ℝ) - ((convert_state_to_coords nx s).1 : ℝ)) ^ 2
      + (((convert_state_to_coords nx sP).2 : ℝ) - ((convert_state_to_coords nx s).2 : ℝ)) ^ 2)

/-- First statement of `MyDynaAgent._update_action_count`:
`self.action_count += distance.reshape(num_states, 1)`, which adds the
same per-state distance to every action of that state. -/
def my_incr_all (nx : Nat) (c : Nat → Nat → ℝ) (s : Nat) : Nat → Nat → ℝ :=
  fun sP aP => c sP aP + euclid_distance nx s sP

/-- Second statement of `MyDynaAgent._update_action_count`:
`self.action_count[s,a] = 0`. -/
def my_set_zero (c : Nat → Nat → ℝ) (s a : Nat) : Nat → Nat → ℝ :=
  fun sP aP => if sP = s ∧ aP = a then 0 else c sP aP

/-- `MyDynaAgent._update_action_count`: distance-weighted increment of
every counter, then zeroing of the taken pair. -/
def my_update_action_count (nx : Nat) (c : Nat → Nat → ℝ) (s a : Nat) :
    Nat → Nat → ℝ :=
  my_set_zero (my_incr_all nx c s) s a

/-- Well-formedness of the experience buffer: row `i` belongs to the
pair `(i / num_actions, i % num_actions)` and stores an in-range next
state. -/
def BufferWF (ag : DynaAgent) : Prop :=
  ∀ i, i < ag.num_states * ag.num_actions →
    (ag.experience_buffer i).s = i / ag.num_actions
    ∧ (ag.experience_buffer i).a = i % ag.num_actions
    ∧ (ag.experience_buffer i).s1 < ag.num_states

/-- A small concrete agent (two states, two actions) used to instantiate
the theorems below on explicit inputs. -/
def agW : DynaAgent where
  alpha := 1
  gamma := 0
  epsilon := 0
  num_states := 2
  num_actions := 2
  start_state := 0
  goal_state := 1
  R := fun _ _ => 1
  Q := fun _ _ => 0
  experience_buffer := init_experience_buffer 2 2
  action_count := fun _ _ => 0
  history := [⟨0, 0, 2, 1⟩, ⟨1, 1, 3, 0⟩]
  s := 0

/-! ### Helper lemmas -/

theorem le_foldl_max (l : List ℝ) (x : ℝ) : x ≤ l.foldl max x := by
  induction l generalizing x with
  | nil => exact le_refl x
  | cons y ys ih => exact le_trans (le_max_left x y) (ih (max x y))

theorem mem_le_foldl_max {y : ℝ} {l : List ℝ} (hy : y ∈ l) (x : ℝ) :
    y ≤ l.foldl max x := by
  induction l generalizing x with
  | nil => cases hy
  | cons z zs ih =>
    rw [List.foldl_cons]
    rcases List.mem_cons.mp hy with h | h
    · subst h
      exact le_trans (le_max_right x y) (le_foldl_max zs (max x y))
    · exact ih h (max x z)

theorem foldl_max_eq_init_or_mem (l : List ℝ) (x : ℝ) :
    l.foldl max x = x ∨ l.foldl max x ∈ l := by
  induction l generalizing x with
  | nil => exact Or.inl rfl
  | cons z zs ih =>
    rw [List.foldl_cons]
    rcases ih (max x z) with h | h
    · rcases max_cases x z with ⟨he, _⟩ | ⟨he, _⟩
      · exact Or.inl (by rw [h, he])
      · exact Or.inr (by rw [h, he]; exact List.mem_cons_self z zs)
    · exact Or.inr (List.mem_cons_of_mem z h)

theorem le_rowMax (f : Nat → ℝ) (n a : Nat) (ha : a < n) : f a ≤ rowMax f n :=
  mem_le_foldl_max (List.mem_map_of_mem f (List.mem_range.mpr ha)) (f 0)

theorem rowMax_attained (f : Nat → ℝ) (n : Nat) (hn : 0 < n) :
    ∃ a, a < n ∧ rowMax f n = f a := by
  rcases foldl_max_eq_init_or_mem ((List.range n).map f) (f 0) with h | h
  · exact ⟨0, hn, h⟩
  · rcases List.mem_map.mp h with ⟨a, ha, he⟩
    exact ⟨a, List.mem_range.mp ha, he.symm⟩

theorem pair_index_div {nA s a : Nat} (ha : a < nA) : (s * nA + a) / nA = s := by
  rw [Nat.mul_comm, Nat.mul_add_div (by omega), Nat.div_eq_of_lt ha, Nat.add_zero]

theorem pair_index_mod {nA s a : Nat} (ha : a < nA) : (s * nA + a) % nA = a := by
  rw [Nat.mul_comm, Nat.mul_add_mod, Nat.mod_eq_of_lt ha]

theorem pair_index_inj {nA s a sP aP : Nat} (ha : a < nA) (haP : aP < nA)
    (h : sP * nA + aP = s * nA + a) : sP = s ∧ aP = a := by
  constructor
  · have := congrArg (fun t => t / nA) h
    simpa [pair_index_div ha, pair_index_div haP] using this
  · have := congrArg (fun t => t % nA) h
    simpa [pair_index_mod ha, pair_index_mod haP] using this

theorem fold_write_apply (s : Nat) (k : Nat) (b : Nat) (buf : Nat → Row) (j : Nat) :
    ((List.range k).foldl (fun bf a => write_row bf (b + a) ⟨s, a, 0, s⟩) buf) j
      = if b ≤ j ∧ j < b + k then ⟨s, j - b, 0, s⟩ else buf j := by
  induction k generalizing buf with
  | zero =>
    simp only [List.range_zero, List.foldl_nil]
    rw [if_neg (by omega)]
  | succ k ih =>
    rw [List.range_succ, List.foldl_append, List.foldl_cons, List.foldl_nil, write_row]
    by_cases hj : j = b + k
    · rw [if_pos hj, if_pos (by omega)]
      have hk : j - b = k := by omega
      rw [hk]
    · rw [if_neg hj, ih buf]
      by_cases h2 : b ≤ j ∧ j < b + k
      · rw [if_pos h2, if_pos (by omega)]
      · rw [if_neg h2, if_neg (by omega)]

theorem init_buffer_row_apply (nA : Nat) (buf : Nat → Row) (s j : Nat) :
    init_buffer_row nA buf s j
      = if s * nA ≤ j ∧ j < s * nA + nA then ⟨s, j - s * nA, 0, s⟩ else buf j :=
  fold_write_apply s nA (s * nA) buf j

theorem fold_init_apply (nA m : Nat) (buf : Nat → Row) (j : Nat) :
    ((List.range m).foldl (init_buffer_row nA) buf) j
      = if j < m * nA then ⟨j / nA, j % nA, 0, j / nA⟩ else buf j := by
  induction m generalizing buf with
  | zero => simp
  | succ m ih =>
    rw [List.range_succ, List.foldl_append, List.foldl_cons, List.foldl_nil,
      init_buffer_row_apply, ih buf]
    have hsm : (m + 1) * nA = m * nA + nA := by ring
    by_cases h1 : m * nA ≤ j ∧ j < m * nA + nA
    · have hdiv : j / nA = m := Nat.div_eq_of_lt_le h1.1 (by omega)
      have hmod : j % nA = j - m * nA := by
        have hd := Nat.div_add_mod j nA
        rw [hdiv, Nat.mul_comm nA m] at hd
        omega
      rw [if_pos h1, if_pos (by omega), hdiv, hmod]
    · rw [if_neg h1]
      by_cases h2 : j < m * nA
      · rw [if_pos h2, if_pos (by omega)]
      · rw [if_neg h2, if_neg (by omega)]

theorem init_experience_buffer_apply (nS nA j : Nat) :
    init_experience_buffer nS nA j
      = if j < nS * nA then ⟨j / nA, j % nA, 0, j / nA⟩ else ⟨0, 0, 0, 0⟩ :=
  fold_init_apply nA nS (fun _ => ⟨0, 0, 0, 0⟩) j

theorem plan_eq (draws : List Nat) (ag : DynaAgent) :
    plan ag draws = { ag with Q := (plan ag draws).Q } := by
  induction draws generalizing ag with
  | nil => rfl
  | cons i rest ih =>
    rw [plan, ih (plan_step ag i)]
    rfl

theorem getD_eq_get (l : List Nat) (n d : Nat) (h : n < l.length) :
    l.getD n d = l.get ⟨n, h⟩ := by
  simp [List.getD_eq_getElem?_getD, List.getElem?_eq_getElem h]

theorem cumsum_from_length (l : List Int) (acc : Int) :
    (cumsum_from acc l).length = l.length := by
  induction l generalizing acc with
  | nil => rfl
  | cons x xs ih => simp [cumsum_from, ih]

theorem cumsum_from_get (l : List Int) (acc : Int) (k : Nat)
    (h : k < (cumsum_from acc l).length) :
    (cumsum_from acc l).get ⟨k, h⟩ = acc + (l.take (k + 1)).sum := by
  induction l generalizing acc k with
  | nil => simp [cumsum_from] at h
  | cons x xs ih =>
    cases k with
    | zero => simp [cumsum_from]
    | succ k =>
      have h2 : k < (cumsum_from (acc + x) xs).length := by
        simpa [cumsum_from] using h
      have := ih (acc + x) k h2
      simp only [cumsum_from, List.get_cons_succ, List.take_succ_cons, List.sum_cons]
      rw [this]
      ring

theorem cumsum_from_chain (l : List Int) (acc : Int) (h : ∀ x ∈ l, 0 ≤ x) :
    List.Chain' (· ≤ ·) (cumsum_from acc l) := by
  induction l generalizing acc with
  | nil => exact List.chain'_nil
  | cons x xs ih =>
    cases xs with
    | nil => simp [cumsum_from]
    | cons y ys =>
      rw [cumsum_from, cumsum_from, List.chain'_cons]
      constructor
      · have : 0 ≤ y := h y (by simp)
        omega
      · have := ih (acc + x) (fun z hz => h z (List.mem_cons_of_mem x hz))
        rw [cumsum_from] at this
        exact this

theorem plan_experience_buffer (draws : List Nat) (ag : DynaAgent) :
    (plan ag draws).experience_buffer = ag.experience_buffer := by
  rw [plan_eq]

theorem plan_action_count (draws : List Nat) (ag : DynaAgent) :
    (plan ag draws).action_count = ag.action_count := by
  rw [plan_eq]

theorem plan_history (draws : List Nat) (ag : DynaAgent) :
    (plan ag draws).history = ag.history := by
  rw [plan_eq]

theorem plan_state (draws : List Nat) (ag : DynaAgent) :
    (plan ag draws).s = ag.s := by
  rw [plan_eq]

theorem plan_num_states (draws : List Nat) (ag : DynaAgent) :
    (plan ag draws).num_states = ag.num_states := by
  rw [plan_eq]

theorem plan_num_actions (draws : List Nat) (ag : DynaAgent) :
    (plan ag draws).num_actions = ag.num_actions := by
  rw [plan_eq]

theorem plan_goal_state (draws : List Nat) (ag : DynaAgent) :
    (plan ag draws).goal_state = ag.goal_state := by
  rw [plan_eq]

theorem plan_start_state (draws : List Nat) (ag : DynaAgent) :
    (plan ag draws).start_state = ag.start_state := by
  rw [plan_eq]

theorem trial_s (p : Bool) (ag : DynaAgent) (o : StepOracle) :
    (trial p ag o).s = if o.next = ag.goal_state then ag.start_state else o.next := by
  cases p <;> rfl

theorem trial_goal_state (p : Bool) (ag : DynaAgent) (o : StepOracle) :
    (trial p ag o).goal_state = ag.goal_state := by
  cases p
  · rfl
  · exact plan_goal_state _ _

theorem trial_start_state (p : Bool) (ag : DynaAgent) (o : StepOracle) :
    (trial p ag o).start_state = ag.start_state := by
  cases p
  · rfl
  · exact plan_start_state _ _

theorem trial_history (p : Bool) (ag : DynaAgent) (o : StepOracle) :
    (trial p ag o).history
      = ag.history
        ++ [⟨ag.s, policy ag ag.s o.pick, ag.R ag.s (policy ag ag.s o.pick), o.next⟩] := by
  cases p
  · rfl
  · exact plan_history _ _

theorem run_trials_goal_state (p : Bool) (oracle : Nat → StepOracle)
    (ag : DynaAgent) (n : Nat) :
    (run_trials p oracle ag n).goal_state = ag.goal_state := by
  induction n with
  | zero => rfl
  | succ n ih => rw [run_trials, trial_goal_state, ih]

theorem run_trials_start_state (p : Bool) (oracle : Nat → StepOracle)
    (ag : DynaAgent) (n : Nat) :
    (run_trials p oracle ag n).start_state = ag.start_state := by
  induction n with
  | zero => rfl
  | succ n ih => rw [run_trials, trial_start_state, ih]

theorem run_trials_history_length (p : Bool) (oracle : Nat → StepOracle)
    (ag : DynaAgent) (n : Nat) :
    (run_trials p oracle ag n).history.length = ag.history.length + n := by
  induction n with
  | zero => rfl
  | succ n ih =>
    rw [run_trials, trial_history, List.length_append, ih]
    simp [Nat.add_assoc]

theorem plan_append (ag : DynaAgent) (d1 d2 : List Nat) :
    plan ag (d1 ++ d2) = plan (plan ag d1) d2 := by
  induction d1 generalizing ag with
  | nil => rfl
  | cons i rest ih =>
    simp only [List.cons_append, plan]
    exact ih (plan_step ag i)

theorem mem_policy_candidates (ag : DynaAgent) (s ac : Nat) :
    ac ∈ policy_candidates ag s
      ↔ ac < ag.num_actions ∧ q_exp ag s ac = q_exp_max ag s := by
  simp [policy_candidates, List.mem_filter, List.mem_range]

/-! ### Claim theorems -/

/-- Claim C1: the learning step `_update_qvals(s, a, r, s1, bonus)`
replaces `Q[s,a]` by `Q[s,a] + alpha * (r + b + gamma * max Q[s1,:] - Q[s,a])`
where `b = epsilon * sqrt(action_count[s,a])` when the bonus is enabled and
`b = 0` otherwise (`m` below is the row maximum, characterised as an
attained upper bound of the row, which requires at least one action);
every other Q entry and every other table is left unchanged. -/
theorem C1_update_qvals (ag : DynaAgent) (s a : Nat) (r : Int) (s1 : Nat)
    (bonus : Bool) (hA : 0 < ag.num_actions) :
    (∃ m : ℝ,
        (∀ aP, aP < ag.num_actions → ag.Q s1 aP ≤ m)
        ∧ (∃ aP, aP < ag.num_actions ∧ ag.Q s1 aP = m)
        ∧ (update_qvals ag s a r s1 bonus).Q s a
            = ag.Q s a + ag.alpha * ((r : ℝ)
                + (if bonus then ag.epsilon * Real.sqrt ((ag.action_count s a : ℝ)) else 0)
                + ag.gamma * m - ag.Q s a))
    ∧ (∀ sP aP, ¬(sP = s ∧ aP = a) →
        (update_qvals ag s a r s1 bonus).Q sP aP = ag.Q sP aP)
    ∧ (update_qvals ag s a r s1 bonus).experience_buffer = ag.experience_buffer
    ∧ (update_qvals ag s a r s1 bonus).action_count = ag.action_count
    ∧ (update_qvals ag s a r s1 bonus).history = ag.history
    ∧ (update_qvals ag s a r s1 bonus).s = ag.s := by
  refine ⟨⟨rowMax (ag.Q s1) ag.num_actions, ?_, ?_, ?_⟩, ?_, rfl, rfl, rfl, rfl⟩
  · exact fun aP h => le_rowMax _ _ _ h
  · obtain ⟨aP, h1, h2⟩ := rowMax_attained (ag.Q s1) ag.num_actions hA
    exact ⟨aP, h1, h2.symm⟩
  · simp only [update_qvals, and_self, if_true]
    cases bonus <;> simp
  · intro sP aP h
    simp only [update_qvals]
    rw [if_neg h]

/-- Claim C1 witness at a concrete agent and input. -/
theorem C1_update_qvals_witness :
    0 < agW.num_actions
    ∧ (update_qvals agW 0 0 2 1 true).Q 1 1 = agW.Q 1 1
    ∧ (update_qvals agW 0 0 2 1 true).history = agW.history :=
  ⟨by norm_num [agW],
   (C1_update_qvals agW 0 0 2 1 true (by norm_num [agW])).2.1 1 1 (by simp),
   (C1_update_qvals agW 0 0 2 1 true (by norm_num [agW])).2.2.2.2.1⟩

/-- Claim C2: `_update_action_count(s, a)` zeroes exactly the taken pair
(the zeroing coming after the global increment, so the taken pair ends at
exactly zero) and increments every other pair's counter by one. -/
theorem C2_update_action_count (ag : DynaAgent) (s a : Nat) :
    (update_action_count ag s a).action_count s a = 0
    ∧ (∀ sP aP, ¬(sP = s ∧ aP = a) →
        (update_action_count ag s a).action_count sP aP = ag.action_count sP aP + 1) := by
  constructor
  · simp [update_action_count, set_zero]
  · intro sP aP h
    simp [update_action_count, set_zero, incr_all, h]

/-- Claim C2 witness at a concrete agent and pair. -/
theorem C2_update_action_count_witness :
    (update_action_count agW 0 0).action_count 0 0 = 0
    ∧ (update_action_count agW 0 0).action_count 1 0 = agW.action_count 1 0 + 1 :=
  ⟨(C2_update_action_count agW 0 0).1,
   (C2_update_action_count agW 0 0).2 1 0 (by simp)⟩

/-- Claim C3: `_plan` performs one Q-update per drawn index (one per
planning iteration, with the bonus enabled, by definition of `plan` and
`plan_step`) and, for every sequence of draws, leaves the experience
buffer, the action counters, the history and the current state unchanged;
consecutive calls compose, so any number of planning calls with no real
step in between also leaves them unchanged. -/
theorem C3_plan (ag : DynaAgent) (draws : List Nat) :
    (plan ag draws).experience_buffer = ag.experience_buffer
    ∧ (plan ag draws).action_count = ag.action_count
    ∧ (plan ag draws).history = ag.history
    ∧ (plan ag draws).s = ag.s
    ∧ (∀ drawsP, plan (plan ag draws) drawsP = plan ag (draws ++ drawsP)) :=
  ⟨plan_experience_buffer draws ag, plan_action_count draws ag,
   plan_history draws ag, plan_state draws ag,
   fun drawsP => (plan_append ag draws drawsP).symm⟩

/-- Claim C4: `_policy(s)` scores every action by
`Q[s,a] + epsilon * sqrt(action_count[s,a])` (the definition of `q_exp`),
builds the list of exactly the maximizers of that score, and returns the
entry of that list selected by the random draw; the list has no
duplicates and every position of it is returned for the corresponding
draw value, so the uniform draw ranges over exactly the set of
maximizers. -/
theorem C4_policy (ag : DynaAgent) (s : Nat) (hA : 0 < ag.num_actions) :
    (∀ ac, ac ∈ policy_candidates ag s
        ↔ (ac < ag.num_actions
            ∧ ∀ b, b < ag.num_actions → q_exp ag s b ≤ q_exp ag s ac))
    ∧ (∀ pick, policy ag s pick ∈ policy_candidates ag s)
    ∧ (policy_candidates ag s).Nodup
    ∧ (∀ j (h : j < (policy_candidates ag s).length),
        policy ag s j = (policy_candidates ag s).get ⟨j, h⟩) := by
  have hub : ∀ b, b < ag.num_actions → q_exp ag s b ≤ q_exp_max ag s :=
    fun b hb => le_rowMax (q_exp ag s) ag.num_actions b hb
  obtain ⟨a0, ha0, hval⟩ := rowMax_attained (q_exp ag s) ag.num_actions hA
  have ha0mem : a0 ∈ policy_candidates ag s :=
    (mem_policy_candidates ag s a0).mpr ⟨ha0, hval.symm⟩
  have hlen : 0 < (policy_candidates ag s).length :=
    List.length_pos.mpr (List.ne_nil_of_mem ha0mem)
  refine ⟨?_, ?_, ?_, ?_⟩
  · intro ac
    rw [mem_policy_candidates]
    constructor
    · rintro ⟨hlt, heq⟩
      exact ⟨hlt, fun b hb => heq ▸ hub b hb⟩
    · rintro ⟨hlt, hge⟩
      refine ⟨hlt, le_antisymm (hub ac hlt) ?_⟩
      rw [show q_exp_max ag s = q_exp ag s a0 from hval]
      exact hge a0 ha0
  · intro pick
    rw [policy, getD_eq_get _ _ _ (Nat.mod_lt pick hlen)]
    exact List.get_mem _ _ _
  · exact (List.nodup_range ag.num_actions).filter _
  · intro j h
    rw [policy, Nat.mod_eq_of_lt h, getD_eq_get _ _ _ h]

/-- Claim C4 witness at a concrete agent and state. -/
theorem C4_policy_witness :
    0 < agW.num_actions ∧ policy agW 0 5 ∈ policy_candidates agW 0 :=
  ⟨by norm_num [agW], (C4_policy agW 0 (by norm_num [agW])).2.1 5⟩

/-- Claim C5: `_update_experience_buffer(s, a, r, s1)` unconditionally
overwrites the slot of the pair `(s, a)` (row `s * num_actions + a`) with
exactly `(s, a, r, s1)` and leaves the slot of every other pair
unchanged, so the entry always equals the single most recently observed
outcome, with no averaging. -/
theorem C5_update_experience_buffer (ag : DynaAgent) (s a : Nat) (r : Int)
    (s1 : Nat) (ha : a < ag.num_actions) :
    (update_experience_buffer ag s a r s1).experience_buffer
        (s * ag.num_actions + a) = ⟨s, a, r, s1⟩
    ∧ (∀ sP aP, aP < ag.num_actions → ¬(sP = s ∧ aP = a) →
        (update_experience_buffer ag s a r s1).experience_buffer
            (sP * ag.num_actions + aP)
          = ag.experience_buffer (sP * ag.num_actions + aP)) := by
  constructor
  · simp [update_experience_buffer]
  · intro sP aP haP h
    simp only [update_experience_buffer]
    rw [if_neg (fun hidx => h (pair_index_inj ha haP hidx))]

/-- Claim C5 witness at a concrete agent and transition. -/
theorem C5_update_experience_buffer_witness :
    1 < agW.num_actions
    ∧ (update_experience_buffer agW 0 1 7 1).experience_buffer
        (0 * agW.num_actions + 1) = ⟨0, 1, 7, 1⟩
    ∧ (update_experience_buffer agW 0 1 7 1).experience_buffer
        (1 * agW.num_actions + 0)
      = agW.experience_buffer (1 * agW.num_actions + 0) :=
  ⟨by norm_num [agW],
   (C5_update_experience_buffer agW 0 1 7 1 (by norm_num [agW])).1,
   (C5_update_experience_buffer agW 0 1 7 1 (by norm_num [agW])).2 1 0
     (by norm_num [agW]) (by simp)⟩

/-- Claim C6: in every run of `simulate`, the current state at the
beginning of the step following step `k` is the start state when step
`k`'s sampled next state is the goal state, and that sampled next state
otherwise; the goal-triggered reset does not terminate the run, which
always executes the fixed number of decision steps (one history entry is
appended per step, so after `n` steps the history has grown by exactly
`n`). -/
theorem C6_simulate (ag : DynaAgent) (num_trials : Nat) (reset p : Bool)
    (oracle : Nat → StepOracle) :
    (∀ k,
      (run_trials p oracle (if reset then reset_tables ag else ag) (k + 1)).s
        = if (oracle k).next = ag.goal_state then ag.start_state
          else (oracle k).next)
    ∧ (simulate ag num_trials reset p oracle).history.length
        = (if reset then reset_tables ag else ag).history.length + num_trials := by
  constructor
  · intro k
    rw [run_trials, trial_s, run_trials_goal_state, run_trials_start_state]
    cases reset <;> rfl
  · rw [simulate, run_trials_history_length]

/-- Claim C7: in the distance-weighted variant,
`MyDynaAgent._update_action_count(s, a)` increments the counter of every
pair `(sP, aP)` other than the taken one by the Euclidean distance, in
the environment's coordinate embedding `(sP / num_x_states, sP % num_x_states)`,
between the newly visited state `s` and `sP` (the same increment for
every action of `sP`), and then sets exactly the taken pair to zero. -/
theorem C7_my_update_action_count (nx : Nat) (c : Nat → Nat → ℝ) (s a : Nat) :
    my_update_action_count nx c s a s a = 0
    ∧ (∀ sP aP, ¬(sP = s ∧ aP = a) →
        my_update_action_count nx c s a sP aP
          = c sP aP
            + Real.sqrt ((((sP / nx : Nat) : ℝ) - ((s / nx : Nat) : ℝ)) ^ 2
              + (((sP % nx : Nat) : ℝ) - ((s % nx : Nat) : ℝ)) ^ 2)) := by
  constructor
  · simp [my_update_action_count, my_set_zero]
  · intro sP aP h
    simp only [my_update_action_count, my_set_zero, my_incr_all, euclid_distance,
      convert_state_to_coords]
    rw [if_neg h]

/-- Claim C7 witness at a concrete grid width, counter table and pair. -/
theorem C7_my_update_action_count_witness :
    my_update_action_count 2 (fun _ _ => 0) 0 0 0 0 = 0
    ∧ my_update_action_count 2 (fun _ _ => 0) 0 0 1 0
      = 0 + Real.sqrt ((((1 / 2 : Nat) : ℝ) - ((0 / 2 : Nat) : ℝ)) ^ 2
          + (((1 % 2 : Nat) : ℝ) - ((0 % 2 : Nat) : ℝ)) ^ 2) :=
  ⟨(C7_my_update_action_count 2 (fun _ _ => 0) 0 0).1,
   (C7_my_update_action_count 2 (fun _ _ => 0) 0 0).2 1 0 (by simp)⟩

/-- Claim C8: planning immediately after a reset, before any real step,
always succeeds (`plan` is total) and only ever reads default experience
rows: after any prefix of planning updates, the row at any index in the
sampler's range still carries reward zero and a next state equal to the
row's own state. -/
theorem C8_plan_initial (ag : DynaAgent) (pre : List Nat) (i : Nat)
    (hi : i < ag.num_states * ag.num_actions) :
    ((plan (reset_tables ag) pre).experience_buffer i).r = 0
    ∧ ((plan (reset_tables ag) pre).experience_buffer i).s1
        = ((plan (reset_tables ag) pre).experience_buffer i).s := by
  rw [plan_experience_buffer]
  show ((init_experience_buffer ag.num_states ag.num_actions) i).r = 0
    ∧ ((init_experience_buffer ag.num_states ag.num_actions) i).s1
        = ((init_experience_buffer ag.num_states ag.num_actions) i).s
  rw [init_experience_buffer_apply, if_pos hi]
  exact ⟨rfl, rfl⟩

/-- Claim C8 witness at a concrete agent, planning prefix and index. -/
theorem C8_plan_initial_witness :
    3 < agW.num_states * agW.num_actions
    ∧ ((plan (reset_tables agW) [2]).experience_buffer 3).r = 0
    ∧ ((plan (reset_tables agW) [2]).experience_buffer 3).s1
        = ((plan (reset_tables agW) [2]).experience_buffer 3).s :=
  ⟨by norm_num [agW],
   (C8_plan_initial agW [2] 3 (by norm_num [agW])).1,
   (C8_plan_initial agW [2] 3 (by norm_num [agW])).2⟩

/-- Claim C9: `get_performace()` returns the running cumulative sum of
the recorded real rewards: it has one entry per history entry, its entry
at index `k` is the sum of the first `k + 1` recorded rewards, and it is
non-decreasing whenever every recorded reward is non-negative. -/
theorem C9_get_performace (ag : DynaAgent) :
    (get_performace ag).length = ag.history.length
    ∧ (∀ k (h : k < (get_performace ag).length),
        (get_performace ag).get ⟨k, h⟩ = ((ag.history.map Row.r).take (k + 1)).sum)
    ∧ ((∀ row ∈ ag.history, 0 ≤ row.r) →
        List.Chain' (· ≤ ·) (get_performace ag)) := by
  refine ⟨?_, ?_, ?_⟩
  · rw [get_performace, cumsum_from_length, List.length_map]
  · intro k h
    rw [get_performace] at h
    show (cumsum_from 0 (ag.history.map Row.r)).get ⟨k, h⟩ = _
    rw [cumsum_from_get, zero_add]
  · intro hpos
    apply cumsum_from_chain
    intro x hx
    rcases List.mem_map.mp hx with ⟨row, hrow, hr⟩
    exact hr ▸ hpos row hrow

/-- Claim C9 witness at a concrete agent with non-negative rewards. -/
theorem C9_get_performace_witness :
    (∀ row ∈ agW.history, 0 ≤ row.r)
    ∧ List.Chain' (· ≤ ·) (get_performace agW) :=
  ⟨by decide, (C9_get_performace agW).2.2 (by decide)⟩

/-- Claim C10: the experience-buffer well-formedness invariant — row `i`
stores state `i / num_actions` and action `i % num_actions` in its first
two fields and an in-range next state — is established by the reset
initialisation, preserved by every in-range recording of a real
transition, and preserved by planning (which never writes the buffer);
hence every row the planning sampler draws is the stored outcome of
exactly the pair owning that slot. -/
theorem C10_buffer_invariant (ag : DynaAgent) :
    BufferWF (reset_tables ag)
    ∧ (∀ s a r s1, BufferWF ag → s < ag.num_states → a < ag.num_actions →
        s1 < ag.num_states → BufferWF (update_experience_buffer ag s a r s1))
    ∧ (∀ draws, BufferWF ag → BufferWF (plan ag draws)) := by
  refine ⟨?_, ?_, ?_⟩
  · intro i hi
    have hi2 : i < ag.num_states * ag.num_actions := hi
    have h0 : 0 < ag.num_actions := by
      rcases Nat.eq_zero_or_pos ag.num_actions with h | h
      · rw [h, Nat.mul_zero] at hi2
        omega
      · exact h
    show (init_experience_buffer ag.num_states ag.num_actions i).s = _
      ∧ (init_experience_buffer ag.num_states ag.num_actions i).a = _
      ∧ (init_experience_buffer ag.num_states ag.num_actions i).s1 < _
    rw [init_experience_buffer_apply, if_pos hi2]
    exact ⟨rfl, rfl, (Nat.div_lt_iff_lt_mul h0).mpr hi2⟩
  · intro s a r s1 hwf hs ha hs1 i hi
    have hi2 : i < ag.num_states * ag.num_actions := hi
    show (if i = s * ag.num_actions + a then (⟨s, a, r, s1⟩ : Row)
        else ag.experience_buffer i).s = i / ag.num_actions
      ∧ (if i = s * ag.num_actions + a then (⟨s, a, r, s1⟩ : Row)
        else ag.experience_buffer i).a = i % ag.num_actions
      ∧ (if i = s * ag.num_actions + a then (⟨s, a, r, s1⟩ : Row)
        else ag.experience_buffer i).s1 < ag.num_states
    by_cases hidx : i = s * ag.num_actions + a
    · rw [if_pos hidx, hidx]
      exact ⟨(pair_index_div ha).symm, (pair_index_mod ha).symm, hs1⟩
    · rw [if_neg hidx]
      exact hwf i hi2
  · intro draws hwf i hi
    have hi2 : i < ag.num_states * ag.num_actions := by
      rwa [plan_num_states, plan_num_actions] at hi
    have hb := plan_experience_buffer draws ag
    show ((plan ag draws).experience_buffer i).s = _
      ∧ ((plan ag draws).experience_buffer i).a = _
      ∧ ((plan ag draws).experience_buffer i).s1 < _
    rw [hb, plan_num_states, plan_num_actions]
    exact hwf i hi2

/-- Claim C10 witness: the invariant holds concretely after a reset and
after recording one in-range transition. -/
theorem C10_buffer_invariant_witness :
    0 < (reset_tables agW).num_states
    ∧ 1 < (reset_tables agW).num_actions
    ∧ BufferWF (update_experience_buffer (reset_tables agW) 0 1 5 1) :=
  ⟨by norm_num [reset_tables, agW],
   by norm_num [reset_tables, agW],
   (C10_buffer_invariant (reset_tables agW)).2.1 0 1 5 1
     (C10_buffer_invariant agW).1
     (by norm_num [reset_tables, agW])
     (by norm_num [reset_tables, agW])
     (by norm_num [reset_tables, agW])⟩

end Dyna
